import Mathlib

/-!
Verification of `werkzeug/asgi.py`: a bidirectional ASGI/WSGI protocol
adapter.  The development shallowly embeds the three components of the
module:

* `SynchronizedInputStream` — the blocking-read byte stream backed by an
  asynchronous receiver (`_read`, `read`).  The asynchronous receiver is
  modelled by an explicit list of pending messages threaded through each
  operation; awaiting on an empty list (which would block forever) is the
  `blocked` outcome, and a Python exception escaping `read` is the `err`
  outcome.
* `asgi_scope_to_environ` — the scope-to-environ metadata translator.
* `ASGIResponse` — the streaming output adapter (`get_app_iter` and the
  send loop of `__call__`).

Bytes are modelled as `List Nat`, Python byte strings as lists of byte
values, and Python's `str` as Lean `String`.
-/

/-- A byte string (Python `bytes`) as a list of byte values. -/
abbrev Bytes := List Nat

/-- One message delivered by the asynchronous receiver.  `request` is
`{'type': 'http.request', 'body': ..., 'more_body': ...}` (with the
defaults `b''` and `False` already substituted for absent keys),
`disconnect` is `{'type': 'http.disconnect'}` and `other` is any message
whose `type` is neither of those. -/
inductive Msg where
  | request (body : Bytes) (more_body : Bool)
  | disconnect
  | other
deriving Repr, DecidableEq

/-- Normalisation of one slice index for Python's `s[a:b]`: a negative
index counts from the end, and the result is clamped into `[0, len]`. -/
def sliceIdx (i : Int) (len : Nat) : Nat :=
  min (if i < 0 then i + len else i).toNat len

/-- Python's slice `s[a:b]`. -/
def pySlice (s : Bytes) (a b : Int) : Bytes :=
  (s.drop (sliceIdx a s.length)).take (sliceIdx b s.length - sliceIdx a s.length)

/-- The mutable state of one `SynchronizedInputStream` instance: the read
cursor `bufp`, the internal `buffer`, and the `exhausted` and `ended`
flags.  The constructor sets `bufp = 0`, `buffer = b''` and both flags to
`False`.  The `receiver` and `loop` attributes are modelled by the list of
pending messages passed to each operation. -/
structure SynchronizedInputStream where
  bufp : Int
  buffer : Bytes
  exhausted : Bool
  ended : Bool
deriving Repr, DecidableEq

/-- The state of a freshly constructed stream. -/
def freshStream : SynchronizedInputStream :=
  { bufp := 0, buffer := [], exhausted := false, ended := false }

/-- `SynchronizedInputStream._read`: one receive operation.  Returns the
yielded value (`none` models Python's `None`, returned when the message
type matches neither branch), the updated state, and the messages still
pending.  The outer `none` means the receiver was awaited with no message
pending (the coroutine would never complete). -/
def SynchronizedInputStream._read (st : SynchronizedInputStream) (msgs : List Msg) :
    Option (Option Bytes × SynchronizedInputStream × List Msg) :=
  if st.ended then some (some [], st, msgs)
  else
    match msgs with
    | [] => none
    | .disconnect :: rest => some (some [], { st with ended := true }, rest)
    | .request body more :: rest => some (some body, { st with ended := !more }, rest)
    | .other :: rest => some (none, st, rest)

/-- Outcome of a `read` call: `ok` returns the bytes together with the
state and pending messages afterwards; `err` is a Python exception
propagating out of `read` (the `TypeError` from `len(None)` after `_read`
returned `None`); `blocked` means an underlying receive never completed. -/
inductive ReadResult where
  | ok (bytes : Bytes) (st : SynchronizedInputStream) (msgs : List Msg)
  | err
  | blocked
deriving Repr, DecidableEq

/-- The `while True` loop of `SynchronizedInputStream.read`: repeatedly
runs `_read`, stores the result in `buffer`, and extends `rv` until it has
`n` bytes or a receive yields zero bytes.  `_read` is inlined branch by
branch so that the recursion is structural on the message list; the lemma
`readLoop_step` below re-establishes the source's call structure (each
iteration performs exactly one `_read`). -/
def SynchronizedInputStream.readLoop (n : Int) (rv : Bytes)
    (st : SynchronizedInputStream) (msgs : List Msg) : ReadResult :=
  if st.ended then
    -- `_read` returns `b''` without receiving; `len(buffer) == 0` sets `exhausted`.
    .ok rv { st with buffer := [], exhausted := true } msgs
  else
    match msgs with
    | [] => .blocked
    | .disconnect :: rest =>
        .ok rv { st with ended := true, buffer := [], exhausted := true } rest
    | .other :: rest => .err
    | .request b more :: rest =>
        if b.length = 0 then
          .ok rv { st with ended := !more, buffer := b, exhausted := true } rest
        else
          let st3 : SynchronizedInputStream :=
            { st with ended := !more, buffer := b, bufp := n - rv.length }
          let rv2 := rv ++ pySlice b 0 (n - rv.length)
          if (rv2.length : Int) = n then .ok rv2 st3 rest
          else SynchronizedInputStream.readLoop n rv2 st3 rest

/-- `SynchronizedInputStream.read` for `n ≠ -1`: an empty result if
`n == 0` or the stream is exhausted, then the slice
`buffer[bufp:bufp + n]`, then the receive loop. -/
def SynchronizedInputStream.readPos (n : Int) (st : SynchronizedInputStream)
    (msgs : List Msg) : ReadResult :=
  if n = 0 ∨ st.exhausted then .ok [] st msgs
  else
    let rv := pySlice st.buffer st.bufp (st.bufp + n)
    if (rv.length : Int) = n then .ok rv { st with bufp := st.bufp + n } msgs
    else SynchronizedInputStream.readLoop n rv st msgs

/-- Number of unconsumed bytes in the internal buffer (used as part of the
termination measure of the `n == -1` accumulation loop). -/
def SynchronizedInputStream.remaining (st : SynchronizedInputStream) : Nat :=
  st.buffer.length - sliceIdx st.bufp st.buffer.length

/-- Length of a Python slice. -/
theorem length_pySlice (s : Bytes) (a b : Int) :
    (pySlice s a b).length =
      min (sliceIdx b s.length - sliceIdx a s.length) (s.length - sliceIdx a s.length) := by
  simp [pySlice]

/-- The three theorems up to `readPos8192_progress` support the
termination argument of `readAllLoop` below: every iteration of the
`n == -1` loop that obtained a nonempty chunk either consumed a pending
message or consumed at least one byte of the internal buffer. -/
theorem readLoop_ok_msgs : ∀ (ms : List Msg) (n : Int) (rv0 : Bytes)
    (st0 : SynchronizedInputStream) (v0 : Bytes) (st2 : SynchronizedInputStream)
    (ms2 : List Msg),
    SynchronizedInputStream.readLoop n rv0 st0 ms = .ok v0 st2 ms2 →
    ms2.length < ms.length ∨ (ms2 = ms ∧ v0 = rv0 ∧ st2.buffer = []) := by
  intro ms
  induction ms with
  | nil =>
    intro n rv0 st0 v0 st2 ms2 h0
    unfold SynchronizedInputStream.readLoop at h0
    split at h0
    · cases h0
      exact Or.inr ⟨rfl, rfl, rfl⟩
    · cases h0
  | cons m rest ih =>
    intro n rv0 st0 v0 st2 ms2 h0
    unfold SynchronizedInputStream.readLoop at h0
    split at h0
    · cases h0
      exact Or.inr ⟨rfl, rfl, rfl⟩
    · cases m with
      | disconnect =>
        simp only at h0
        cases h0
        simp
      | other =>
        simp only at h0
        cases h0
      | request b more =>
        simp only at h0
        split at h0
        · cases h0
          simp
        · split at h0
          · cases h0
            simp
          · rcases ih n _ _ _ _ _ h0 with h | ⟨h1, h2, h3⟩
            · left; simp; omega
            · left; simp [h1]

theorem slice8192_full_advance (st : SynchronizedInputStream)
    (h8 : ((pySlice st.buffer st.bufp (st.bufp + 8192)).length : Int) = 8192) :
    st.buffer.length - sliceIdx (st.bufp + 8192) st.buffer.length <
      st.buffer.length - sliceIdx st.bufp st.buffer.length := by
  rw [length_pySlice] at h8
  simp only [sliceIdx, Nat.min_def] at h8 ⊢
  split_ifs at h8 ⊢ <;> omega

theorem slice8192_nonempty_pos (st : SynchronizedInputStream)
    (hne : (pySlice st.buffer st.bufp (st.bufp + 8192)).length ≠ 0) :
    0 < st.buffer.length - sliceIdx st.bufp st.buffer.length := by
  rw [length_pySlice] at hne
  simp only [sliceIdx, Nat.min_def] at hne ⊢
  split_ifs at hne ⊢ <;> omega

theorem readPos8192_progress (st : SynchronizedInputStream) (msgs : List Msg)
    (v : Bytes) (st1 : SynchronizedInputStream) (msgs1 : List Msg)
    (h : SynchronizedInputStream.readPos 8192 st msgs = .ok v st1 msgs1)
    (hv : v.length ≠ 0) :
    msgs1.length < msgs.length ∨
      (msgs1 = msgs ∧
        SynchronizedInputStream.remaining st1 < SynchronizedInputStream.remaining st) := by
  unfold SynchronizedInputStream.readPos at h
  split at h
  · cases h
    simp at hv
  · dsimp only at h
    split at h
    · cases h
      rename_i hslice
      right
      refine ⟨rfl, ?_⟩
      simp only [SynchronizedInputStream.remaining]
      exact slice8192_full_advance st hslice
    · rcases readLoop_ok_msgs _ _ _ _ _ _ _ h with hlt | ⟨h1, h2, h3⟩
      · exact Or.inl hlt
      · subst h1
        subst h2
        right
        refine ⟨rfl, ?_⟩
        simp only [SynchronizedInputStream.remaining, h3, List.length_nil, Nat.zero_sub]
        exact slice8192_nonempty_pos st hv

/-- The `while True` loop of the `n == -1` branch of `read`: accumulates
`self.read(8192)` results until one is empty (`read(8192)` takes the
`readPos` path since `8192 ≠ -1`). -/
def SynchronizedInputStream.readAllLoop (rv : Bytes) (st : SynchronizedInputStream)
    (msgs : List Msg) : ReadResult :=
  match h : SynchronizedInputStream.readPos 8192 st msgs with
  | .blocked => .blocked
  | .err => .err
  | .ok v st1 msgs1 =>
    if hv : v.length = 0 then .ok rv st1 msgs1
    else SynchronizedInputStream.readAllLoop (rv ++ v) st1 msgs1
  termination_by (msgs.length, SynchronizedInputStream.remaining st)
  decreasing_by
    rcases readPos8192_progress st msgs v st1 msgs1 h hv with hlt | ⟨he, hr⟩
    · exact Prod.Lex.left _ _ hlt
    · subst he
      exact Prod.Lex.right _ hr

/-- `SynchronizedInputStream.read`, the public blocking read: `n = -1`
runs the accumulation loop, every other `n` the sized read. -/
def SynchronizedInputStream.read (n : Int) (st : SynchronizedInputStream)
    (msgs : List Msg) : ReadResult :=
  if n = -1 then SynchronizedInputStream.readAllLoop [] st msgs
  else SynchronizedInputStream.readPos n st msgs

/-- The bytes a `read` call returned, when it returned normally. -/
def readBytes? : ReadResult → Option Bytes
  | .ok v _ _ => some v
  | _ => none

/-- The unconsumed tail of the internal buffer: `buffer[bufp:]`. -/
def bufRest (st : SynchronizedInputStream) : Bytes :=
  st.buffer.drop (sliceIdx st.bufp st.buffer.length)

/-- Concatenation of the body bytes of a message sequence. -/
def concatBodies : List Msg → Bytes
  | [] => []
  | .request b _ :: rest => b ++ concatBodies rest
  | .disconnect :: rest => concatBodies rest
  | .other :: rest => concatBodies rest

/-- A well-formed whole-body delivery: one or more `http.request`
messages, every message before the last marked `more_body=True` and
carrying a nonempty body, the last one unmarked (its body may be empty). -/
inductive WfBody : List Msg → Prop
  | last (b : Bytes) : WfBody [.request b false]
  | cons (b : Bytes) (hb : b ≠ []) {rest : List Msg} (h : WfBody rest) :
      WfBody (.request b true :: rest)

/-- Invariant tying a stream state to the pending messages between
iterations of the `n == -1` loop: the cursor is nonnegative, the stream is
not yet exhausted, and either the final chunk has not been received and a
well-formed remainder is pending, or it has and no message remains. -/
def StInv (st : SynchronizedInputStream) (msgs : List Msg) : Prop :=
  0 ≤ st.bufp ∧ st.exhausted = false ∧
    ((st.ended = false ∧ WfBody msgs) ∨ (st.ended = true ∧ msgs = []))

/-- A value stored in the WSGI environ: the source stores strings, the
ints of an ASGI `server`/`client` port, and `None` for absent endpoint
parts. -/
inductive EnvVal where
  | vstr (s : String)
  | vint (n : Int)
  | vnone
deriving Repr, DecidableEq

/-- An ASGI connection scope, restricted to the keys the translator
consumes.  A `none` field is a key absent from the scope dictionary
(`method` and `path` are accessed with `scope[...]` and so are required).
A present `server`/`client` is a `[host, port]` pair whose parts may
themselves be `None`. -/
structure Scope where
  method : String
  path : String
  root_path : Option String
  query_string : Option Bytes
  server : Option (Option String × Option Int)
  client : Option (Option String × Option Int)
  scheme : Option String
  headers : Option (List (Bytes × Bytes))
deriving Repr, DecidableEq

/-- `bytes.decode('iso-8859-1')`: each byte becomes the character with its
code point. -/
def decodeLatin1 (b : Bytes) : String :=
  ⟨b.map Char.ofNat⟩

/-- The host half of `scope.get('server', [None, None])[0]` (and of the
`client` analogue) as an environ value. -/
def hostVal (ep : Option (Option String × Option Int)) : EnvVal :=
  match (ep.getD (none, none)).1 with
  | none => .vnone
  | some s => .vstr s

/-- The port half of `scope.get('server', [None, None])[1]` (and of the
`client` analogue) as an environ value. -/
def portVal (ep : Option (Option String × Option Int)) : EnvVal :=
  match (ep.getD (none, none)).2 with
  | none => .vnone
  | some p => .vint p

/-- `k.decode('iso-8859-1').replace('-', '_').upper()` plus the
conditional `HTTP_` marker of the source's header loop.  `.replace` with
the one-character pattern `'-'` is a per-character substitution, and
`.upper()` is modelled by `Char.toUpper`, which agrees with Python's
`str.upper` on the ASCII names HTTP headers use. -/
def wsgiHeaderKey (k : Bytes) : String :=
  let base : String := ⟨(k.map Char.ofNat).map
    (fun c => Char.toUpper (if c = '-' then '_' else c))⟩
  if base = "CONTENT_TYPE" ∨ base = "CONTENT_LENGTH" then base
  else "HTTP_" ++ base

/-- `environ[wsgi_key] += '; ' + v`: appends to a string entry.  Only
header-created entries (always strings) are ever appended to, because
translated header keys never collide with the base environ keys; on a
non-string entry Python would raise `TypeError` (the case is unreachable,
see `baseEnviron_fresh`). -/
def appendVal (v : String) : EnvVal → EnvVal
  | .vstr s => .vstr (s ++ "; " ++ v)
  | x => x

/-- One iteration of the header loop of `asgi_scope_to_environ`: insert
the translated header, or append `'; ' + value` to the entry already
present (`wsgi_key not in environ`). -/
def addHeader (env : List (String × EnvVal)) (kv : Bytes × Bytes) :
    List (String × EnvVal) :=
  if (env.lookup (wsgiHeaderKey kv.1)).isSome then
    env.map (fun p => if p.1 = wsgiHeaderKey kv.1 then
      (p.1, appendVal (decodeLatin1 kv.2) p.2) else p)
  else env ++ [(wsgiHeaderKey kv.1, .vstr (decodeLatin1 kv.2))]

/-- The dict literal of `asgi_scope_to_environ`, given the decoded query
string is available (its entries are evaluated before the header loop
runs). -/
def baseEnviron (scope : Scope) (qs : Bytes) : List (String × EnvVal) :=
  [ ("REQUEST_METHOD", .vstr scope.method),
    ("SCRIPT_NAME", .vstr (scope.root_path.getD "")),
    ("PATH_INFO", .vstr (scope.root_path.getD "" ++ scope.path)),
    ("QUERY_STRING", .vstr (decodeLatin1 qs)),
    ("SERVER_NAME", hostVal scope.server),
    ("SERVER_PORT", portVal scope.server),
    ("REMOTE_HOST", hostVal scope.client),
    ("REMOTE_ADDR", hostVal scope.client),
    ("REMOTE_PORT", portVal scope.client),
    ("wsgi.url_scheme", .vstr (scope.scheme.getD "http")) ]

/-- `asgi_scope_to_environ`.  The environ dictionary is modelled as an
insertion-ordered association list.  When `query_string` is absent,
`scope.get('query_string')` yields `None` and `None.decode('iso-8859-1')`
raises `AttributeError`, modelled by `Except.error`. -/
def asgi_scope_to_environ (scope : Scope) : Except Unit (List (String × EnvVal)) :=
  match scope.query_string with
  | none => .error ()
  | some qs => .ok ((scope.headers.getD []).foldl addHeader (baseEnviron scope qs))

/-- One chunk of a response body: Python `str` or `bytes`. -/
inductive Chunk where
  | text (s : String)
  | bytes (b : Bytes)
deriving Repr, DecidableEq

/-- `item.encode(self.charset)` for text chunks (werkzeug's charset is
UTF-8); byte chunks pass through unchanged.  This is the body of
`aiter_encoded`. -/
def encodeChunk : Chunk → Bytes
  | .text s => s.toUTF8.toList.map (fun b => b.toNat)
  | .bytes b => b

/-- The declared response body: a synchronous sequence (a list/generator,
supporting `len` when a list, not asynchronously iterable) or an
asynchronous iterable (no `len`). -/
inductive RespBody where
  | syncSeq (chunks : List Chunk)
  | asyncSeq (chunks : List Chunk)
deriving Repr, DecidableEq

/-- The value `get_app_iter` produces: `agen` is an asynchronous iterator
(an `_asyncify`/`aiter_encoded` generator or a passthrough asynchronous
iterable) — it supports `async for` but not `len`; `slist` is a
synchronous sequence returned unchanged by the passthrough branch — it
supports `len` (when a list) but `async for` over it raises `TypeError`. -/
inductive AppIter where
  | agen (chunks : List Chunk)
  | slist (chunks : List Chunk)
deriving Repr, DecidableEq

/-- `ASGIResponse`: the fields of the response object the embedded methods
consume. -/
structure ASGIResponse where
  status_code : Nat
  direct_passthrough : Bool
  response : RespBody
deriving Repr, DecidableEq

/-- `ASGIResponse.get_app_iter`.  `method` is `environ['REQUEST_METHOD']`
and `dbg` is the interpreter constant `__debug__` (true under default
flags, false under `-O`).  For a HEAD request or a bodyless status the
effective iterable is the empty tuple, asyncified and encoded.  The
direct-passthrough branch first runs
`if __debug__: _warn_if_string(self.response)`; `_warn_if_string` is not
bound anywhere in the module, so with `dbg` true this raises `NameError`
(modelled by `Except.error`), and only under `-O` is the raw body
returned unchanged, skipping both the `AsyncIterable` adaptation and the
encoding.  Otherwise the declared body is asyncified if needed and each
chunk encoded by `aiter_encoded`. -/
def ASGIResponse.get_app_iter (self : ASGIResponse) (method : String) (dbg : Bool) :
    Except Unit AppIter :=
  if method = "HEAD" ∨ (100 ≤ self.status_code ∧ self.status_code < 200) ∨
      self.status_code = 204 ∨ self.status_code = 304 then
    .ok (.agen [])
  else if self.direct_passthrough then
    if dbg then .error ()
    else
      match self.response with
      | .syncSeq cs => .ok (.slist cs)
      | .asyncSeq cs => .ok (.agen cs)
  else
    match self.response with
    | .syncSeq cs => .ok (.agen (cs.map (fun c => .bytes (encodeChunk c))))
    | .asyncSeq cs => .ok (.agen (cs.map (fun c => .bytes (encodeChunk c))))

/-- One ASGI frame sent by the response coroutine.  `start` is
`http.response.start` with the response's status (the header list is
produced by the externally supplied `get_wsgi_headers` and not modelled);
`body` is `http.response.body`, where `data = none` means the `body` key
is absent and `more_body` records whether the `more_body: True` key was
set. -/
inductive Frame where
  | start (status : Nat)
  | body (data : Option Chunk) (more_body : Bool)
deriving Repr, DecidableEq

/-- `try: l = len(app_iter) except: l = None`: only a synchronous sequence
supports `len`. -/
def lenProbe : AppIter → Option Nat
  | .agen _ => none
  | .slist cs => some cs.length

/-- The `async for` send loop of the response coroutine: one body frame
per chunk, carrying `more_body: True` when `l is None or i < l`, then the
empty terminal frame when `l is None`. -/
def sendBody (l : Option Nat) : Nat → List Chunk → List Frame
  | _, [] =>
    match l with
    | none => [.body none false]
    | some _ => []
  | i, c :: rest =>
      .body (some c) (match l with | none => true | some m => decide (i < m))
        :: sendBody l (i + 1) rest

/-- The coroutine returned by `ASGIResponse.__call__`, applied to one
exchange: sends the start frame, probes `len(app_iter)`, then runs the
send loop.  `async for` over a synchronous sequence (the `slist` case)
raises `TypeError`; `Except.error` carries the frames sent before the
exception escaped. -/
def responseCoro (status : Nat) (it : AppIter) : Except (List Frame) (List Frame) :=
  let l := lenProbe it
  match it with
  | .slist _ => .error [.start status]
  | .agen chunks => .ok (.start status :: sendBody l 0 chunks)

/-- `ASGIResponse.__call__` composed with its coroutine: `app_iter` is
obtained through the externally supplied `get_wsgi_response`, which
delegates to the overridden `get_app_iter` above.  An exception raised
there escapes `__call__` before the response coroutine exists, so no
frame at all is sent (`.error []`). -/
def ASGIResponse.call (self : ASGIResponse) (method : String) (dbg : Bool) :
    Except (List Frame) (List Frame) :=
  match self.get_app_iter method dbg with
  | .error _ => .error []
  | .ok it => responseCoro self.status_code it

/-- A `read` on an exhausted stream returns `b''` at once, for every `n`
(both the `n == -1` loop, whose first `read(8192)` is empty, and the
short-circuit `if n == 0 or self.exhausted`), leaving state and pending
messages untouched. -/
theorem read_on_exhausted (n : Int) (st : SynchronizedInputStream) (msgs : List Msg)
    (hex : st.exhausted = true) :
    SynchronizedInputStream.read n st msgs = .ok [] st msgs := by
  have hrp : SynchronizedInputStream.readPos 8192 st msgs = .ok [] st msgs := by
    unfold SynchronizedInputStream.readPos
    simp [hex]
  unfold SynchronizedInputStream.read
  by_cases hn : n = -1
  · rw [if_pos hn]
    unfold SynchronizedInputStream.readAllLoop
    split
    · rename_i heq
      rw [hrp] at heq
      cases heq
    · rename_i heq
      rw [hrp] at heq
      cases heq
    · rename_i v st1 msgs1 heq
      rw [hrp] at heq
      cases heq
      simp
  · rw [if_neg hn]
    unfold SynchronizedInputStream.readPos
    simp [hex]

/-- Unfolding `readLoop` as the source writes it: one `_read` per
iteration.  (The definition above inlines `_read` so the recursion is
structural; this lemma recovers the original call structure.) -/
theorem readLoop_step (n : Int) (rv : Bytes) (st : SynchronizedInputStream)
    (msgs : List Msg) :
    SynchronizedInputStream.readLoop n rv st msgs =
      match SynchronizedInputStream._read st msgs with
      | none => .blocked
      | some (none, _, _) => .err
      | some (some b, st1, msgs1) =>
        if b.length = 0 then .ok rv { st1 with buffer := b, exhausted := true } msgs1
        else
          let st3 : SynchronizedInputStream :=
            { st1 with buffer := b, bufp := n - rv.length }
          let rv2 := rv ++ pySlice b 0 (n - rv.length)
          if (rv2.length : Int) = n then .ok rv2 st3 msgs1
          else SynchronizedInputStream.readLoop n rv2 st3 msgs1 := by
  by_cases he : st.ended
  · rw [SynchronizedInputStream.readLoop.eq_def]
    simp [SynchronizedInputStream._read, he]
  · cases msgs with
    | nil =>
      rw [SynchronizedInputStream.readLoop.eq_def]
      simp [SynchronizedInputStream._read, he]
    | cons m rest =>
      cases m <;>
        · rw [SynchronizedInputStream.readLoop.eq_def]
          simp [SynchronizedInputStream._read, he]

theorem pySlice_nonneg_add (s : Bytes) (a n : Int) (ha : 0 ≤ a) (hn : 0 ≤ n) :
    pySlice s a (a + n) = (s.drop (sliceIdx a s.length)).take n.toNat := by
  unfold pySlice
  rw [List.take_eq_take]
  simp only [List.length_drop]
  simp only [sliceIdx]
  split_ifs <;> omega

theorem pySlice_zero_take (s : Bytes) (m : Int) (hm : 0 ≤ m) :
    pySlice s 0 m = s.take m.toNat := by
  have h := pySlice_nonneg_add s 0 m le_rfl hm
  simpa [sliceIdx] using h

theorem drop_min_len (l : Bytes) (k : Nat) : l.drop (min k l.length) = l.drop k := by
  rcases Nat.le_total k l.length with h | h
  · rw [min_eq_left h]
  · rw [min_eq_right h, List.drop_eq_nil_of_le le_rfl, List.drop_eq_nil_of_le h]

theorem bufRest_set_bufp (st : SynchronizedInputStream) (b : Bytes) (e : Bool) (x : Int)
    (hx : 0 ≤ x) :
    bufRest { st with ended := e, buffer := b, bufp := x } = b.drop x.toNat := by
  unfold bufRest
  simp only [sliceIdx]
  rw [if_neg (by omega)]
  exact drop_min_len b x.toNat

theorem readLoop_ended (n : Int) (rv : Bytes) (st : SynchronizedInputStream)
    (msgs : List Msg) (he : st.ended = true) :
    SynchronizedInputStream.readLoop n rv st msgs =
      .ok rv { st with buffer := [], exhausted := true } msgs := by
  rw [SynchronizedInputStream.readLoop.eq_def]
  simp [he]

theorem readLoop_wf : ∀ (msgs : List Msg), WfBody msgs →
    ∀ (n : Int) (rv : Bytes) (st : SynchronizedInputStream),
    st.ended = false → st.exhausted = false → 0 ≤ st.bufp → (rv.length : Int) < n →
    ∃ v st1 msgs1,
      SynchronizedInputStream.readLoop n rv st msgs = .ok v st1 msgs1 ∧
      0 ≤ st1.bufp ∧
      v ++ bufRest st1 ++ concatBodies msgs1 = rv ++ concatBodies msgs ∧
      ((st1.exhausted = false ∧ (v.length : Int) = n ∧
         ((st1.ended = false ∧ WfBody msgs1) ∨ (st1.ended = true ∧ msgs1 = []))) ∨
       (st1.exhausted = true ∧ bufRest st1 = [] ∧ msgs1 = [])) := by
  intro msgs hw
  induction hw with
  | last b =>
    intro n rv st hend hex hbp hlt
    rw [SynchronizedInputStream.readLoop.eq_def]
    simp only [hend]
    by_cases hb0 : b.length = 0
    · rw [if_pos hb0]
      have hbnil : b = [] := List.length_eq_zero.mp hb0
      refine ⟨rv, { st with ended := !false, buffer := b, exhausted := true }, [],
        rfl, hbp, ?_, ?_⟩
      · simp [bufRest, hbnil, concatBodies]
      · exact Or.inr ⟨rfl, by simp [bufRest, hbnil], rfl⟩
    · rw [if_neg hb0]
      have hx : (0 : Int) ≤ n - rv.length := by omega
      rw [pySlice_zero_take b _ hx]
      by_cases hfull : (((rv ++ b.take (n - (rv.length : Int)).toNat).length : Int)) = n
      · rw [if_pos hfull]
        refine ⟨rv ++ b.take (n - (rv.length : Int)).toNat,
          { st with ended := !false, buffer := b, bufp := n - rv.length }, [],
          rfl, hx, ?_, ?_⟩
        · rw [bufRest_set_bufp _ _ _ _ hx]
          simp only [concatBodies, List.append_nil, List.append_assoc]
          rw [List.take_append_drop]
        · exact Or.inl ⟨hex, hfull, Or.inr ⟨by simp, rfl⟩⟩
      · rw [if_neg hfull]
        rw [readLoop_ended _ _ _ _ (by simp)]
        have hble : b.length ≤ (n - (rv.length : Int)).toNat := by
          by_contra hgt
          apply hfull
          simp only [List.length_append, List.length_take]
          omega
        refine ⟨rv ++ b.take (n - (rv.length : Int)).toNat, _, [], rfl, hx, ?_, ?_⟩
        · rw [List.take_of_length_le hble]
          simp [bufRest, concatBodies]
        · exact Or.inr ⟨rfl, by simp [bufRest], rfl⟩
  | cons b hb hwrest ih =>
    rename_i rest
    intro n rv st hend hex hbp hlt
    rw [SynchronizedInputStream.readLoop.eq_def]
    simp only [hend]
    have hb0 : ¬ b.length = 0 := fun h => hb (List.length_eq_zero.mp h)
    rw [if_neg hb0]
    have hx : (0 : Int) ≤ n - rv.length := by omega
    rw [pySlice_zero_take b _ hx]
    by_cases hfull : (((rv ++ b.take (n - (rv.length : Int)).toNat).length : Int)) = n
    · rw [if_pos hfull]
      refine ⟨rv ++ b.take (n - (rv.length : Int)).toNat,
        { st with ended := !true, buffer := b, bufp := n - rv.length }, rest,
        rfl, hx, ?_, ?_⟩
      · rw [bufRest_set_bufp _ _ _ _ hx]
        simp only [concatBodies, List.append_assoc]
        rw [← List.append_assoc (b.take _), List.take_append_drop]
      · exact Or.inl ⟨hex, hfull, Or.inl ⟨by simp, hwrest⟩⟩
    · rw [if_neg hfull]
      have hble : b.length ≤ (n - (rv.length : Int)).toNat := by
        by_contra hgt
        apply hfull
        simp only [List.length_append, List.length_take]
        omega
      have hlt2 : (((rv ++ b.take (n - (rv.length : Int)).toNat).length : Int)) < n := by
        have hle : (((rv ++ b.take (n - (rv.length : Int)).toNat).length : Int)) ≤ n := by
          simp only [List.length_append, List.length_take]
          push_cast
          omega
        exact lt_of_le_of_ne hle hfull
      obtain ⟨v, st1, msgs1, heq, hbp1, hcons, hout⟩ :=
        ih n (rv ++ b.take (n - (rv.length : Int)).toNat)
          { st with ended := !true, buffer := b, bufp := n - rv.length }
          (by simp) hex hx hlt2
      refine ⟨v, st1, msgs1, heq, hbp1, ?_, hout⟩
      rw [hcons]
      simp only [concatBodies, List.append_assoc]
      rw [List.take_of_length_le hble]

theorem bufRest_eq (st : SynchronizedInputStream) :
    bufRest st = st.buffer.drop (sliceIdx st.bufp st.buffer.length) := rfl

theorem sliceIdx_add_8192 (len : Nat) (p : Int) (hp : 0 ≤ p)
    (hrem : 8192 ≤ len - sliceIdx p len) :
    sliceIdx (p + 8192) len = sliceIdx p len + 8192 := by
  simp only [sliceIdx] at *
  split_ifs at * <;> omega

theorem readPos8192_wf (st : SynchronizedInputStream) (msgs : List Msg)
    (hinv : StInv st msgs) :
    ∃ v st1 msgs1,
      SynchronizedInputStream.readPos 8192 st msgs = .ok v st1 msgs1 ∧
      v ++ bufRest st1 ++ concatBodies msgs1 = bufRest st ++ concatBodies msgs ∧
      (StInv st1 msgs1 ∨
        (st1.exhausted = true ∧ bufRest st1 = [] ∧ concatBodies msgs1 = [])) ∧
      (v = [] → bufRest st ++ concatBodies msgs = []) := by
  obtain ⟨hbp, hex, hdisj⟩ := hinv
  unfold SynchronizedInputStream.readPos
  rw [if_neg (by simp [hex])]
  dsimp only
  rw [pySlice_nonneg_add st.buffer st.bufp 8192 hbp (by norm_num), ← bufRest_eq]
  simp only [show (8192 : Int).toNat = 8192 from rfl]
  by_cases hfull : (((bufRest st).take 8192).length : Int) = 8192
  · rw [if_pos hfull]
    have hrem : 8192 ≤ st.buffer.length - sliceIdx st.bufp st.buffer.length := by
      have h1 : ((bufRest st).take 8192).length = min 8192 (bufRest st).length :=
        List.length_take _ _
      have h2 : (bufRest st).length = st.buffer.length - sliceIdx st.bufp st.buffer.length := by
        rw [bufRest_eq, List.length_drop]
      omega
    have hb1 : bufRest { st with bufp := st.bufp + 8192 } = (bufRest st).drop 8192 := by
      rw [bufRest_eq, bufRest_eq]
      dsimp only
      rw [sliceIdx_add_8192 _ _ hbp hrem, List.drop_drop]
    refine ⟨(bufRest st).take 8192, { st with bufp := st.bufp + 8192 }, msgs, rfl, ?_, ?_, ?_⟩
    · rw [hb1, List.take_append_drop]
    · exact Or.inl ⟨by dsimp only; omega, hex, hdisj⟩
    · intro hv
      rw [hv] at hfull
      simp at hfull
  · rw [if_neg hfull]
    have hrlt : (bufRest st).length < 8192 := by
      have h1 : ((bufRest st).take 8192).length = min 8192 (bufRest st).length :=
        List.length_take _ _
      omega
    have hrv0 : (bufRest st).take 8192 = bufRest st := List.take_of_length_le (by omega)
    rw [hrv0]
    rcases hdisj with ⟨hendf, hw⟩ | ⟨hendt, hmsgs⟩
    · obtain ⟨v, st1, msgs1, heq, hbp1, hcons, hout⟩ :=
        readLoop_wf msgs hw 8192 (bufRest st) st hendf hex hbp (by exact_mod_cast hrlt)
      refine ⟨v, st1, msgs1, heq, hcons, ?_, ?_⟩
      · rcases hout with ⟨hexf, hvlen, hdis⟩ | ⟨hext, hbr, hm1⟩
        · exact Or.inl ⟨hbp1, hexf, hdis⟩
        · exact Or.inr ⟨hext, hbr, by rw [hm1]; rfl⟩
      · intro hv
        rcases hout with ⟨hexf, hvlen, hdis⟩ | ⟨hext, hbr, hm1⟩
        · rw [hv] at hvlen
          simp at hvlen
        · rw [hv, hbr, hm1] at hcons
          simpa [concatBodies] using hcons.symm
    · rw [readLoop_ended _ _ _ _ hendt]
      refine ⟨bufRest st, _, msgs, rfl, ?_, ?_, ?_⟩
      · simp [bufRest, hmsgs, concatBodies]
      · exact Or.inr ⟨rfl, by simp [bufRest], by rw [hmsgs]; rfl⟩
      · intro hv
        rw [hv, hmsgs]
        rfl

theorem readAllLoop_exhausted (rv : Bytes) (st : SynchronizedInputStream)
    (msgs : List Msg) (hex : st.exhausted = true) :
    SynchronizedInputStream.readAllLoop rv st msgs = .ok rv st msgs := by
  have hrp : SynchronizedInputStream.readPos 8192 st msgs = .ok [] st msgs := by
    unfold SynchronizedInputStream.readPos
    simp [hex]
  unfold SynchronizedInputStream.readAllLoop
  split <;> rename_i heq <;> rw [hrp] at heq <;> cases heq
  simp

theorem readAllLoop_stop (rv : Bytes) (st : SynchronizedInputStream)
    (msgs : List Msg) (st1 : SynchronizedInputStream) (msgs1 : List Msg)
    (h : SynchronizedInputStream.readPos 8192 st msgs = .ok [] st1 msgs1) :
    SynchronizedInputStream.readAllLoop rv st msgs = .ok rv st1 msgs1 := by
  rw [SynchronizedInputStream.readAllLoop.eq_def]
  split <;> rename_i heq <;> rw [h] at heq <;> cases heq
  simp

theorem readAllLoop_more (rv : Bytes) (st : SynchronizedInputStream)
    (msgs : List Msg) (v : Bytes) (st1 : SynchronizedInputStream) (msgs1 : List Msg)
    (h : SynchronizedInputStream.readPos 8192 st msgs = .ok v st1 msgs1)
    (hv : v.length ≠ 0) :
    SynchronizedInputStream.readAllLoop rv st msgs =
      SynchronizedInputStream.readAllLoop (rv ++ v) st1 msgs1 := by
  rw [SynchronizedInputStream.readAllLoop.eq_def]
  split <;> rename_i heq <;> rw [h] at heq <;> cases heq
  simp [hv]

theorem readAllLoop_wf : ∀ (rv : Bytes) (st : SynchronizedInputStream) (msgs : List Msg),
    (StInv st msgs ∨ (st.exhausted = true ∧ bufRest st = [] ∧ concatBodies msgs = [])) →
    ∃ st' msgs',
      SynchronizedInputStream.readAllLoop rv st msgs =
        .ok (rv ++ bufRest st ++ concatBodies msgs) st' msgs' := by
  intro rv st msgs
  induction rv, st, msgs using SynchronizedInputStream.readAllLoop.induct with
  | case1 rv st msgs hrp =>
    intro hpre
    rcases hpre with hinv | ⟨hex, _, _⟩
    · obtain ⟨v, st1, msgs1, heq, _, _, _⟩ := readPos8192_wf st msgs hinv
      rw [heq] at hrp
      cases hrp
    · unfold SynchronizedInputStream.readPos at hrp
      simp [hex] at hrp
  | case2 rv st msgs hrp =>
    intro hpre
    rcases hpre with hinv | ⟨hex, _, _⟩
    · obtain ⟨v, st1, msgs1, heq, _, _, _⟩ := readPos8192_wf st msgs hinv
      rw [heq] at hrp
      cases hrp
    · unfold SynchronizedInputStream.readPos at hrp
      simp [hex] at hrp
  | case3 rv st msgs v st1 msgs1 h hv0 =>
    intro hpre
    have hvnil : v = [] := List.length_eq_zero.mp hv0
    subst hvnil
    rcases hpre with hinv | ⟨hex, hbr, hcb⟩
    · obtain ⟨v', st1', msgs1', heq, hcons, houts, hemp⟩ := readPos8192_wf st msgs hinv
      rw [heq] at h
      cases h
      have hdone := hemp rfl
      refine ⟨st1, msgs1, ?_⟩
      rw [readAllLoop_stop rv st msgs _ _ heq, List.append_assoc, hdone, List.append_nil]
    · refine ⟨st, msgs, ?_⟩
      rw [readAllLoop_exhausted rv st msgs hex, List.append_assoc, hbr, hcb]
      simp
  | case4 rv st msgs v st1 msgs1 h hv0 ih =>
    intro hpre
    rcases hpre with hinv | ⟨hex, hbr, hcb⟩
    · obtain ⟨v', st1', msgs1', heq, hcons, houts, hemp⟩ := readPos8192_wf st msgs hinv
      rw [heq] at h
      cases h
      obtain ⟨st', msgs', hres⟩ := ih houts
      refine ⟨st', msgs', ?_⟩
      rw [readAllLoop_more rv st msgs _ _ _ heq hv0, hres]
      simp only [List.append_assoc] at hcons ⊢
      rw [hcons]
    · unfold SynchronizedInputStream.readPos at h
      simp [hex] at h
      obtain ⟨hv, _, _⟩ := h
      simp [hv] at hv0

theorem read_minus_one_wf (msgs : List Msg) (hw : WfBody msgs) :
    readBytes? (SynchronizedInputStream.read (-1) freshStream msgs) =
      some (concatBodies msgs) := by
  obtain ⟨st', msgs', hres⟩ :=
    readAllLoop_wf [] freshStream msgs
      (Or.inl ⟨le_refl 0, rfl, Or.inl ⟨rfl, hw⟩⟩)
  unfold SynchronizedInputStream.read
  rw [if_pos rfl, hres]
  simp [readBytes?, bufRest, freshStream]

theorem readLoop_short : ∀ (ms : List Msg) (n : Int) (rv : Bytes)
    (st : SynchronizedInputStream) (v : Bytes) (st1 : SynchronizedInputStream)
    (ms1 : List Msg),
    SynchronizedInputStream.readLoop n rv st ms = .ok v st1 ms1 →
    (v.length : Int) = n ∨ st1.exhausted = true := by
  intro ms
  induction ms with
  | nil =>
    intro n rv st v st1 ms1 h0
    unfold SynchronizedInputStream.readLoop at h0
    split at h0
    · cases h0
      exact Or.inr rfl
    · cases h0
  | cons m rest ih =>
    intro n rv st v st1 ms1 h0
    unfold SynchronizedInputStream.readLoop at h0
    split at h0
    · cases h0
      exact Or.inr rfl
    · cases m with
      | disconnect =>
        simp only at h0
        cases h0
        exact Or.inr rfl
      | other =>
        simp only at h0
        cases h0
      | request b more =>
        simp only at h0
        split at h0
        · cases h0
          exact Or.inr rfl
        · split at h0
          · rename_i hfull
            cases h0
            exact Or.inl hfull
          · exact ih n _ _ _ _ _ h0

/-- `'; '.join`-style accumulation, mirroring the incremental
`environ[k] += '; ' + v` of the header loop. -/
def joinAcc (s : String) : List String → String
  | [] => s
  | v :: vs => joinAcc (s ++ "; " ++ v) vs

/-- The decoded values of the headers whose translated key is `key`, in
arrival order. -/
def headerValuesFor (key : String) (hdrs : List (Bytes × Bytes)) : List String :=
  (hdrs.filter (fun p => wsgiHeaderKey p.1 = key)).map (fun p => decodeLatin1 p.2)

theorem lookup_cons_ite (key k : String) (w : EnvVal) (rest : List (String × EnvVal)) :
    List.lookup key ((k, w) :: rest) = if key = k then some w else List.lookup key rest := by
  rw [List.lookup_cons]
  by_cases h : key = k
  · subst h
    simp
  · have hb : (key == k) = false := by simpa using h
    rw [hb, if_neg h]

theorem lookup_of_forall_ne (env : List (String × EnvVal)) (key : String)
    (h : ∀ p ∈ env, p.1 ≠ key) : env.lookup key = none := by
  induction env with
  | nil => rfl
  | cons p rest ih =>
    obtain ⟨k, w⟩ := p
    have hk : k ≠ key := h (k, w) (List.mem_cons_self _ _)
    rw [lookup_cons_ite, if_neg (fun he => hk he.symm)]
    exact ih (fun q hq => h q (List.mem_cons_of_mem _ hq))

theorem lookup_update_self (env : List (String × EnvVal)) (key : String)
    (g : EnvVal → EnvVal) :
    (env.map (fun p => if p.1 = key then (p.1, g p.2) else p)).lookup key =
      (env.lookup key).map g := by
  induction env with
  | nil => rfl
  | cons p rest ih =>
    obtain ⟨k, w⟩ := p
    by_cases hp : k = key
    · subst hp
      rw [List.map_cons,
        show (if (k, w).1 = k then ((k, w).1, g (k, w).2) else ((k, w) : String × EnvVal))
          = (k, g w) from by simp,
        lookup_cons_ite, lookup_cons_ite, if_pos rfl, if_pos rfl]
      rfl
    · rw [List.map_cons,
        show (if (k, w).1 = key then ((k, w).1, g (k, w).2) else ((k, w) : String × EnvVal))
          = (k, w) from by simp [hp],
        lookup_cons_ite, lookup_cons_ite, if_neg (fun he => hp he.symm),
        if_neg (fun he => hp he.symm)]
      exact ih

theorem lookup_update_ne (env : List (String × EnvVal)) (key key' : String)
    (g : EnvVal → EnvVal) (hne : key' ≠ key) :
    (env.map (fun p => if p.1 = key' then (p.1, g p.2) else p)).lookup key =
      env.lookup key := by
  induction env with
  | nil => rfl
  | cons p rest ih =>
    obtain ⟨k, w⟩ := p
    by_cases hp : k = key'
    · rw [List.map_cons,
        show (if (k, w).1 = key' then ((k, w).1, g (k, w).2) else ((k, w) : String × EnvVal))
          = (k, g w) from by simp [hp],
        lookup_cons_ite, lookup_cons_ite,
        if_neg (fun he => hne (by rw [← hp, ← he])),
        if_neg (fun he => hne (by rw [← hp, ← he]))]
      exact ih
    · rw [List.map_cons,
        show (if (k, w).1 = key' then ((k, w).1, g (k, w).2) else ((k, w) : String × EnvVal))
          = (k, w) from by simp [hp],
        lookup_cons_ite, lookup_cons_ite]
      by_cases hk : key = k
      · rw [if_pos hk, if_pos hk]
      · rw [if_neg hk, if_neg hk]
        exact ih

theorem lookup_append_of_none (env l : List (String × EnvVal)) (key : String)
    (h : env.lookup key = none) : (env ++ l).lookup key = l.lookup key := by
  induction env with
  | nil => rfl
  | cons p rest ih =>
    obtain ⟨k, w⟩ := p
    rw [lookup_cons_ite] at h
    by_cases hk : key = k
    · rw [if_pos hk] at h
      cases h
    · rw [if_neg hk] at h
      rw [List.cons_append, lookup_cons_ite, if_neg hk]
      exact ih h

theorem lookup_append_of_some (env l : List (String × EnvVal)) (key : String)
    (w0 : EnvVal) (h : env.lookup key = some w0) : (env ++ l).lookup key = some w0 := by
  induction env with
  | nil => cases h
  | cons p rest ih =>
    obtain ⟨k, w⟩ := p
    rw [lookup_cons_ite] at h
    by_cases hk : key = k
    · rw [if_pos hk] at h
      rw [List.cons_append, lookup_cons_ite, if_pos hk]
      exact h
    · rw [if_neg hk] at h
      rw [List.cons_append, lookup_cons_ite, if_neg hk]
      exact ih h

theorem headerValuesFor_cons (key : String) (hd : Bytes × Bytes)
    (tl : List (Bytes × Bytes)) :
    headerValuesFor key (hd :: tl) =
      if wsgiHeaderKey hd.1 = key then decodeLatin1 hd.2 :: headerValuesFor key tl
      else headerValuesFor key tl := by
  unfold headerValuesFor
  by_cases h : wsgiHeaderKey hd.1 = key
  · simp [List.filter_cons, h]
  · simp [List.filter_cons, h]

theorem foldl_addHeader_lookup : ∀ (hdrs : List (Bytes × Bytes))
    (env : List (String × EnvVal)) (key : String),
    (env.lookup key = none →
      (hdrs.foldl addHeader env).lookup key =
        (match headerValuesFor key hdrs with
         | [] => none
         | v :: vs => some (.vstr (joinAcc v vs)))) ∧
    (∀ s, env.lookup key = some (.vstr s) →
      (hdrs.foldl addHeader env).lookup key =
        some (.vstr (joinAcc s (headerValuesFor key hdrs)))) := by
  intro hdrs
  induction hdrs with
  | nil =>
    intro env key
    constructor
    · intro h
      simpa [headerValuesFor] using h
    · intro s h
      simpa [headerValuesFor, joinAcc] using h
  | cons hd tl ih =>
    intro env key
    by_cases hk : wsgiHeaderKey hd.1 = key
    · subst hk
      constructor
      · intro hnone
        have hstep : addHeader env hd = env ++ [(wsgiHeaderKey hd.1, EnvVal.vstr (decodeLatin1 hd.2))] := by
          unfold addHeader
          rw [if_neg (by simp [hnone])]
        have hlk : (env ++ [(wsgiHeaderKey hd.1, EnvVal.vstr (decodeLatin1 hd.2))]).lookup
            (wsgiHeaderKey hd.1) = some (EnvVal.vstr (decodeLatin1 hd.2)) := by
          rw [lookup_append_of_none _ _ _ hnone, lookup_cons_ite, if_pos rfl]
        rw [List.foldl_cons, hstep,
          (ih (env ++ [(wsgiHeaderKey hd.1, EnvVal.vstr (decodeLatin1 hd.2))]) _).2 _ hlk,
          headerValuesFor_cons, if_pos rfl]
      · intro s hsome
        have hstep : addHeader env hd =
            env.map (fun p => if p.1 = wsgiHeaderKey hd.1 then
              (p.1, appendVal (decodeLatin1 hd.2) p.2) else p) := by
          unfold addHeader
          rw [if_pos (by simp [hsome])]
        have hlk : (env.map (fun p => if p.1 = wsgiHeaderKey hd.1 then
            (p.1, appendVal (decodeLatin1 hd.2) p.2) else p)).lookup (wsgiHeaderKey hd.1) =
            some (EnvVal.vstr (s ++ "; " ++ decodeLatin1 hd.2)) := by
          rw [lookup_update_self, hsome]
          rfl
        rw [List.foldl_cons, hstep,
          (ih _ _).2 _ hlk, headerValuesFor_cons, if_pos rfl]
        rfl
    · have hstep : (addHeader env hd).lookup key = env.lookup key := by
        unfold addHeader
        by_cases hs : (env.lookup (wsgiHeaderKey hd.1)).isSome
        · rw [if_pos hs]
          exact lookup_update_ne env key _ _ hk
        · rw [if_neg hs]
          cases henvk : env.lookup key with
          | some w => exact lookup_append_of_some _ _ _ _ henvk
          | none =>
            rw [lookup_append_of_none _ _ _ henvk, lookup_cons_ite,
              if_neg (fun he => hk he.symm)]
            rfl
      constructor
      · intro hnone
        rw [List.foldl_cons, (ih (addHeader env hd) key).1 (hstep.trans hnone),
          headerValuesFor_cons, if_neg hk]
      · intro s hsome
        rw [List.foldl_cons, (ih (addHeader env hd) key).2 s (hstep.trans hsome),
          headerValuesFor_cons, if_neg hk]

theorem map_fst_update (env : List (String × EnvVal)) (key : String)
    (g : EnvVal → EnvVal) :
    (env.map (fun p => if p.1 = key then (p.1, g p.2) else p)).map Prod.fst =
      env.map Prod.fst := by
  induction env with
  | nil => rfl
  | cons p rest ih =>
    obtain ⟨k, w⟩ := p
    by_cases hp : k = key <;> simp [hp, ih]

theorem lookup_isSome_of_mem_keys (env : List (String × EnvVal)) (key : String)
    (h : key ∈ env.map Prod.fst) : (env.lookup key).isSome := by
  induction env with
  | nil => cases h
  | cons p rest ih =>
    obtain ⟨k, w⟩ := p
    rw [lookup_cons_ite]
    by_cases hk : key = k
    · rw [if_pos hk]
      rfl
    · rw [if_neg hk]
      exact ih (by simpa [hk] using h)

theorem keys_addHeader (env : List (String × EnvVal)) (kv : Bytes × Bytes)
    (hn : (env.map Prod.fst).Nodup) : ((addHeader env kv).map Prod.fst).Nodup := by
  unfold addHeader
  by_cases hs : (env.lookup (wsgiHeaderKey kv.1)).isSome
  · rw [if_pos hs, map_fst_update]
    exact hn
  · rw [if_neg hs, List.map_append]
    have hnotmem : wsgiHeaderKey kv.1 ∉ env.map Prod.fst := by
      intro hmem
      exact hs (lookup_isSome_of_mem_keys env _ hmem)
    simp [List.nodup_append, hn, hnotmem]

theorem keys_foldl_addHeader : ∀ (hdrs : List (Bytes × Bytes))
    (env : List (String × EnvVal)), (env.map Prod.fst).Nodup →
    ((hdrs.foldl addHeader env).map Prod.fst).Nodup := by
  intro hdrs
  induction hdrs with
  | nil => exact fun env hn => hn
  | cons hd tl ih =>
    intro env hn
    rw [List.foldl_cons]
    exact ih _ (keys_addHeader env hd hn)

theorem http_append_ne (s lit : String) (h : lit.data.take 5 ≠ "HTTP_".data) :
    lit ≠ "HTTP_" ++ s := by
  intro he
  apply h
  rw [he, String.data_append]
  have h5 : ("HTTP_".data).length = 5 := rfl
  rw [← h5, List.take_left]

theorem wsgiHeaderKey_shape (name : Bytes) :
    wsgiHeaderKey name = "CONTENT_TYPE" ∨ wsgiHeaderKey name = "CONTENT_LENGTH" ∨
      ∃ s, wsgiHeaderKey name = "HTTP_" ++ s := by
  unfold wsgiHeaderKey
  dsimp only
  split_ifs with h
  · rcases h with h | h
    · exact Or.inl h
    · exact Or.inr (Or.inl h)
  · exact Or.inr (Or.inr ⟨_, rfl⟩)

theorem baseEnviron_fresh (sc : Scope) (qs : Bytes) (name : Bytes) :
    (baseEnviron sc qs).lookup (wsgiHeaderKey name) = none := by
  apply lookup_of_forall_ne
  intro p hp
  have hmem : p.1 ∈ ["REQUEST_METHOD", "SCRIPT_NAME", "PATH_INFO", "QUERY_STRING",
      "SERVER_NAME", "SERVER_PORT", "REMOTE_HOST", "REMOTE_ADDR", "REMOTE_PORT",
      "wsgi.url_scheme"] := by
    have := List.mem_map_of_mem Prod.fst hp
    simpa [baseEnviron] using this
  rcases wsgiHeaderKey_shape name with h | h | ⟨s, h⟩ <;> rw [h] <;>
    simp only [List.mem_cons, List.not_mem_nil, or_false] at hmem
  · rcases hmem with h1|h1|h1|h1|h1|h1|h1|h1|h1|h1 <;> rw [h1] <;> decide
  · rcases hmem with h1|h1|h1|h1|h1|h1|h1|h1|h1|h1 <;> rw [h1] <;> decide
  · rcases hmem with h1|h1|h1|h1|h1|h1|h1|h1|h1|h1 <;> rw [h1] <;>
      exact http_append_ne _ _ (by decide)

theorem baseEnviron_keys (sc : Scope) (qs : Bytes) :
    (baseEnviron sc qs).map Prod.fst = ["REQUEST_METHOD", "SCRIPT_NAME", "PATH_INFO",
      "QUERY_STRING", "SERVER_NAME", "SERVER_PORT", "REMOTE_HOST", "REMOTE_ADDR",
      "REMOTE_PORT", "wsgi.url_scheme"] := rfl

/-- C1: the claim states that for a body whose chunk count is statically
knowable (`len(app_iter)` succeeds, e.g. `l = 3`) the adapter tags every
frame except the last with "more body" and sends no extra terminal frame,
and that for an unknowable count every data frame is tagged and one empty
untagged terminal frame follows.  The second half holds, but the first
fails: the loop's condition `l is None or i < l` is true for every index
`i < l`, so with `l = 3` all three frames — including the last — carry
`more_body: True`, and no terminal frame is sent.  This theorem evaluates
the send loop at the failing input. -/
theorem sendBody_known_count_tags_every_frame :
    sendBody (some 3) 0 [Chunk.bytes [97], Chunk.bytes [98], Chunk.bytes [99]] =
      [Frame.body (some (Chunk.bytes [97])) true,
       Frame.body (some (Chunk.bytes [98])) true,
       Frame.body (some (Chunk.bytes [99])) true] ∧
    sendBody none 0 [Chunk.bytes [97], Chunk.bytes [98], Chunk.bytes [99]] =
      [Frame.body (some (Chunk.bytes [97])) true,
       Frame.body (some (Chunk.bytes [98])) true,
       Frame.body (some (Chunk.bytes [99])) true,
       Frame.body none false] := by
  decide

/-- C2 counterexample: the claim quantifies over every unspecified or
negative `n`, but the implementation special-cases only `n == -1`.  For
`n = -2` the slice arithmetic drops bytes: a single 5-byte chunk
`b"hello"` is returned as `b"hel"`, not the full body. -/
theorem read_neg_two_loses_bytes :
    readBytes? (SynchronizedInputStream.read (-2) freshStream
      [.request [104, 101, 108, 108, 111] false]) = some [104, 101, 108] ∧
    concatBodies [.request [104, 101, 108, 108, 111] false] =
      [104, 101, 108, 108, 111] ∧
    some [104, 101, 108] ≠ some ([104, 101, 108, 108, 111] : Bytes) := by
  decide

/-- C2 (amended): for a body delivered as one or more data chunks whose
final chunk is unmarked for continuation and whose non-final chunks are
nonempty, `read(-1)` (the default/unspecified size, the only negative size
the implementation handles) repeatedly reads 8192-byte chunks until the
source is exhausted and returns exactly the delivered bytes, in order,
exactly once, regardless of chunk boundaries. -/
theorem read_full_returns_all_bytes (msgs : List Msg) (hw : WfBody msgs) :
    readBytes? (SynchronizedInputStream.read (-1) freshStream msgs) =
      some (concatBodies msgs) :=
  read_minus_one_wf msgs hw

theorem read_full_returns_all_bytes_witness :
    readBytes? (SynchronizedInputStream.read (-1) freshStream
      [.request [1, 2] true, .request [3] false]) = some [1, 2, 3] := by
  have h := read_full_returns_all_bytes [.request [1, 2] true, .request [3] false]
    (WfBody.cons [1, 2] (by decide) (WfBody.last [3]))
  rw [show concatBodies [.request [1, 2] true, .request [3] false] = [1, 2, 3]
    from rfl] at h
  exact h

/-- C3: the claim states a direct-passthrough response forwards the raw
body source unchanged, without re-encoding, and that the send protocol
still delivers each of its chunks as body frames.  The code does neither
under default interpreter flags: the passthrough branch runs
`if __debug__: _warn_if_string(self.response)` with `_warn_if_string`
unbound in the module, so `get_app_iter` raises `NameError` for every
passthrough body — synchronous or asynchronous — inside
`get_wsgi_response`, before the response coroutine exists and before the
start frame (first three conjuncts).  Only under `-O` is the source
forwarded unchanged without re-encoding (conjuncts four and five), and
even then a synchronous source makes the send loop's `async for` raise
`TypeError` after the start frame, delivering no chunk (last
conjunct). -/
theorem direct_passthrough_raises_before_start :
    (∀ cs : List Chunk,
      ASGIResponse.get_app_iter ⟨200, true, .syncSeq cs⟩ "GET" true = .error ()) ∧
    (∀ cs : List Chunk,
      ASGIResponse.get_app_iter ⟨200, true, .asyncSeq cs⟩ "GET" true = .error ()) ∧
    ASGIResponse.call ⟨200, true, .syncSeq [Chunk.bytes [97], Chunk.bytes [98]]⟩
      "GET" true = .error [] ∧
    (∀ cs : List Chunk,
      ASGIResponse.get_app_iter ⟨200, true, .syncSeq cs⟩ "GET" false =
        .ok (.slist cs)) ∧
    (∀ cs : List Chunk,
      ASGIResponse.get_app_iter ⟨200, true, .asyncSeq cs⟩ "GET" false =
        .ok (.agen cs)) ∧
    ASGIResponse.call ⟨200, true, .syncSeq [Chunk.bytes [97], Chunk.bytes [98]]⟩
      "GET" false = .error [Frame.start 200] := by
  exact ⟨fun cs => rfl, fun cs => rfl, rfl, fun cs => rfl, fun cs => rfl, rfl⟩

/-- C4: the claim states the translator never raises for a missing
optional field.  It holds for `server`, `client`, `root_path`, `scheme`
and `headers` (second conjunct: explicit `None`/empty values), but fails
for a missing `query_string`: `scope.get('query_string')` yields `None`
and `None.decode('iso-8859-1')` raises `AttributeError` (first
conjunct). -/
theorem missing_query_string_raises :
    asgi_scope_to_environ ⟨"GET", "/x", none, none, none, none, none, none⟩ =
      .error () ∧
    asgi_scope_to_environ ⟨"GET", "/x", none, some [], none, none, none, none⟩ =
      .ok [("REQUEST_METHOD", .vstr "GET"), ("SCRIPT_NAME", .vstr ""),
        ("PATH_INFO", .vstr "/x"), ("QUERY_STRING", .vstr ""),
        ("SERVER_NAME", .vnone), ("SERVER_PORT", .vnone), ("REMOTE_HOST", .vnone),
        ("REMOTE_ADDR", .vnone), ("REMOTE_PORT", .vnone),
        ("wsgi.url_scheme", .vstr "http")] :=
  ⟨rfl, rfl⟩

/-- C5: for a HEAD request, an informational status (100-199) or status
204/304, the adapter sends exactly the start frame followed by one
terminal body frame with no continuation tag and no data frames,
regardless of the declared body. -/
theorem head_or_bodyless_sends_start_then_terminal (resp : ASGIResponse) (method : String)
    (dbg : Bool)
    (h : method = "HEAD" ∨ (100 ≤ resp.status_code ∧ resp.status_code < 200) ∨
      resp.status_code = 204 ∨ resp.status_code = 304) :
    resp.call method dbg = .ok [Frame.start resp.status_code, Frame.body none false] := by
  unfold ASGIResponse.call ASGIResponse.get_app_iter
  rw [if_pos h]
  rfl

theorem head_or_bodyless_witness :
    ASGIResponse.call ⟨200, false, .syncSeq [Chunk.bytes [97]]⟩ "HEAD" true =
      .ok [Frame.start 200, Frame.body none false] :=
  head_or_bodyless_sends_start_then_terminal ⟨200, false, .syncSeq [Chunk.bytes [97]]⟩
    "HEAD" true (Or.inl rfl)

/-- C6: once `ended` is set, `_read` returns empty without consuming a
message (no receive is issued); `exhausted` is set by the read loop the
first time a receive yields zero bytes; and once `exhausted` is set every
`read` returns empty immediately, leaving the pending messages (and the
state) untouched. -/
theorem ended_and_exhausted_semantics :
    (∀ (st : SynchronizedInputStream) (msgs : List Msg), st.ended = true →
      SynchronizedInputStream._read st msgs = some (some [], st, msgs)) ∧
    (∀ (n : Int) (rv : Bytes) (st st1 : SynchronizedInputStream)
        (msgs msgs1 : List Msg),
      SynchronizedInputStream._read st msgs = some (some [], st1, msgs1) →
      SynchronizedInputStream.readLoop n rv st msgs =
        .ok rv { st1 with buffer := [], exhausted := true } msgs1) ∧
    (∀ (n : Int) (st : SynchronizedInputStream) (msgs : List Msg),
      st.exhausted = true →
      SynchronizedInputStream.read n st msgs = .ok [] st msgs) := by
  refine ⟨?_, ?_, ?_⟩
  · intro st msgs he
    unfold SynchronizedInputStream._read
    rw [if_pos he]
  · intro n rv st st1 msgs msgs1 h
    rw [readLoop_step, h]
    simp
  · exact fun n st msgs hex => read_on_exhausted n st msgs hex

theorem ended_and_exhausted_semantics_witness :
    SynchronizedInputStream.read 7 ⟨0, [], true, false⟩ [] =
      .ok [] ⟨0, [], true, false⟩ [] :=
  ended_and_exhausted_semantics.2.2 7 ⟨0, [], true, false⟩ [] rfl

/-- C7: a received message whose type is neither `http.request` nor
`http.disconnect` makes the triggering `read` raise (`_read` returns
`None` and `len(None)` raises `TypeError`, which propagates to the
caller) rather than return bytes or be ignored. -/
theorem unexpected_message_type_errors :
    (∀ (n : Int) (rv : Bytes) (st : SynchronizedInputStream) (rest : List Msg),
      st.ended = false →
      SynchronizedInputStream.readLoop n rv st (.other :: rest) = .err) ∧
    (∀ (n : Int) (rest : List Msg), 0 < n →
      SynchronizedInputStream.read n freshStream (.other :: rest) = .err) := by
  have h1 : ∀ (n : Int) (rv : Bytes) (st : SynchronizedInputStream) (rest : List Msg),
      st.ended = false →
      SynchronizedInputStream.readLoop n rv st (.other :: rest) = .err := by
    intro n rv st rest he
    unfold SynchronizedInputStream.readLoop
    rw [if_neg (by simp [he])]
  refine ⟨h1, ?_⟩
  intro n rest hn
  unfold SynchronizedInputStream.read
  rw [if_neg (by omega)]
  unfold SynchronizedInputStream.readPos
  rw [if_neg (by simp [freshStream]; omega)]
  dsimp only
  rw [show pySlice freshStream.buffer freshStream.bufp (freshStream.bufp + n) = []
    from by simp [pySlice, freshStream]]
  rw [if_neg (by simp; omega)]
  exact h1 n [] freshStream rest rfl

theorem unexpected_message_type_errors_witness :
    SynchronizedInputStream.read 1 freshStream [.other] = .err :=
  unexpected_message_type_errors.2 1 [] (by decide)

/-- C8 counterexample: the claim promises exactly one map entry per
distinct header name, with joining only "when a name repeats".  The two
distinct names `b"x-a"` and `b"x_a"` normalise to the same key
`HTTP_X_A`, so the translator produces a single merged entry `"1; 2"`
instead of one entry per name: the entry for `x-a` does not equal the
join of the values of `x-a` alone. -/
theorem distinct_names_merged_entry :
    asgi_scope_to_environ ⟨"GET", "/x", none, some [97, 61, 49], none, none, none,
        some [([120, 45, 97], [49]), ([120, 95, 97], [50])]⟩ =
      .ok [("REQUEST_METHOD", .vstr "GET"), ("SCRIPT_NAME", .vstr ""),
        ("PATH_INFO", .vstr "/x"), ("QUERY_STRING", .vstr "a=1"),
        ("SERVER_NAME", .vnone), ("SERVER_PORT", .vnone), ("REMOTE_HOST", .vnone),
        ("REMOTE_ADDR", .vnone), ("REMOTE_PORT", .vnone),
        ("wsgi.url_scheme", .vstr "http"), ("HTTP_X_A", .vstr "1; 2")] ∧
    ([120, 45, 97] : Bytes) ≠ [120, 95, 97] ∧
    ("1; 2" : String) ≠ "1" :=
  ⟨rfl, by decide, by decide⟩

/-- C8 (amended): the translator produces exactly one environ entry per
distinct translated header key (upper-cased, dashes to underscores,
`HTTP_`-prefixed unless `content-type`/`content-length`), and the entry
for a name's key equals the values of all headers sharing that key,
joined with `"; "` in arrival order. -/
theorem header_entries_joined_by_translated_key (sc : Scope) (qs : Bytes)
    (hdrs : List (Bytes × Bytes)) (env : List (String × EnvVal))
    (hqs : sc.query_string = some qs) (hh : sc.headers = some hdrs)
    (henv : asgi_scope_to_environ sc = .ok env) :
    (env.map Prod.fst).Nodup ∧
    ∀ name ∈ hdrs.map Prod.fst,
      ∃ v vs, headerValuesFor (wsgiHeaderKey name) hdrs = v :: vs ∧
        env.lookup (wsgiHeaderKey name) = some (.vstr (joinAcc v vs)) := by
  have henv' : hdrs.foldl addHeader (baseEnviron sc qs) = env := by
    unfold asgi_scope_to_environ at henv
    rw [hqs] at henv
    simp only [hh, Option.getD_some] at henv
    exact (Except.ok.injEq _ _).mp henv
  subst henv'
  constructor
  · exact keys_foldl_addHeader hdrs _ (by rw [baseEnviron_keys]; decide)
  · intro name hname
    have h1 := (foldl_addHeader_lookup hdrs (baseEnviron sc qs)
      (wsgiHeaderKey name)).1 (baseEnviron_fresh sc qs name)
    have hne : headerValuesFor (wsgiHeaderKey name) hdrs ≠ [] := by
      obtain ⟨p, hp, hp1⟩ := List.mem_map.mp hname
      unfold headerValuesFor
      intro hnil
      rcases List.map_eq_nil_iff.mp hnil with hfil
      have := List.filter_eq_nil_iff.mp hfil p hp
      simp [hp1] at this
    cases hv : headerValuesFor (wsgiHeaderKey name) hdrs with
    | nil => exact absurd hv hne
    | cons v vs =>
      rw [hv] at h1
      exact ⟨v, vs, rfl, h1⟩

theorem header_entries_joined_witness :
    ∃ env, asgi_scope_to_environ ⟨"GET", "/x", none, some [97, 61, 49], none, none,
        none, some [([120, 45, 97], [49]), ([120, 95, 97], [50])]⟩ = .ok env ∧
      env.lookup "HTTP_X_A" = some (EnvVal.vstr "1; 2") := by
  obtain ⟨hnd, hjoin⟩ := header_entries_joined_by_translated_key
    ⟨"GET", "/x", none, some [97, 61, 49], none, none, none,
      some [([120, 45, 97], [49]), ([120, 95, 97], [50])]⟩
    [97, 61, 49] [([120, 45, 97], [49]), ([120, 95, 97], [50])]
    ([("REQUEST_METHOD", .vstr "GET"), ("SCRIPT_NAME", .vstr ""),
      ("PATH_INFO", .vstr "/x"), ("QUERY_STRING", .vstr "a=1"),
      ("SERVER_NAME", .vnone), ("SERVER_PORT", .vnone), ("REMOTE_HOST", .vnone),
      ("REMOTE_ADDR", .vnone), ("REMOTE_PORT", .vnone),
      ("wsgi.url_scheme", .vstr "http"), ("HTTP_X_A", .vstr "1; 2")])
    rfl rfl rfl
  refine ⟨_, rfl, ?_⟩
  have h2 := hjoin [120, 45, 97] (by decide)
  obtain ⟨v, vs, hv, hl⟩ := h2
  rw [show wsgiHeaderKey [120, 45, 97] = "HTTP_X_A" from rfl] at hv hl
  rw [show headerValuesFor "HTTP_X_A"
      [([120, 45, 97], [49]), ([120, 95, 97], [50])] = ["1", "2"] from rfl] at hv
  cases hv
  exact hl

/-- C9: a `read(n)` on an already-exhausted stream returns the empty byte
string for every `n` (positive, zero, `-1` or any other negative),
consumes no message, leaves the state unchanged (hence is idempotent) and
never raises. -/
theorem read_after_exhaustion_returns_empty (n : Int) (st : SynchronizedInputStream)
    (msgs : List Msg) (hex : st.exhausted = true) :
    SynchronizedInputStream.read n st msgs = .ok [] st msgs :=
  read_on_exhausted n st msgs hex

theorem read_after_exhaustion_witness :
    SynchronizedInputStream.read (-5) ⟨2, [9, 9], true, false⟩ [.request [1] true] =
      .ok [] ⟨2, [9, 9], true, false⟩ [.request [1] true] :=
  read_after_exhaustion_returns_empty (-5) ⟨2, [9, 9], true, false⟩
    [.request [1] true] rfl

theorem readPos_short (n : Int) (st : SynchronizedInputStream) (msgs : List Msg)
    (v : Bytes) (st1 : SynchronizedInputStream) (msgs1 : List Msg) (hn : 0 < n)
    (h : SynchronizedInputStream.readPos n st msgs = .ok v st1 msgs1) :
    (v.length : Int) = n ∨ st1.exhausted = true := by
  unfold SynchronizedInputStream.readPos at h
  split at h
  · rename_i hc
    cases h
    rcases hc with hc | hc
    · omega
    · exact Or.inr hc
  · dsimp only at h
    split at h
    · rename_i hfull
      cases h
      exact Or.inl hfull
    · exact readLoop_short _ _ _ _ _ _ _ h

/-- C10: for positive `n`, a `read(n)` that returns normally with fewer
than `n` bytes has set the `exhausted` flag, and every subsequent read
(for any size) returns empty: a short read is only ever the last
non-empty read of the stream. -/
theorem short_read_implies_exhausted (n : Int) (st : SynchronizedInputStream)
    (msgs : List Msg) (v : Bytes) (st1 : SynchronizedInputStream) (msgs1 : List Msg)
    (hn : 0 < n) (h : SynchronizedInputStream.read n st msgs = .ok v st1 msgs1)
    (hshort : (v.length : Int) < n) :
    st1.exhausted = true ∧
      ∀ m : Int, SynchronizedInputStream.read m st1 msgs1 = .ok [] st1 msgs1 := by
  unfold SynchronizedInputStream.read at h
  rw [if_neg (by omega)] at h
  rcases readPos_short n st msgs v st1 msgs1 hn h with hfull | hex1
  · omega
  · exact ⟨hex1, fun m => read_on_exhausted m st1 msgs1 hex1⟩

theorem short_read_implies_exhausted_witness :
    (⟨5, [], true, true⟩ : SynchronizedInputStream).exhausted = true ∧
      ∀ m : Int, SynchronizedInputStream.read m ⟨5, [], true, true⟩ [] =
        .ok [] ⟨5, [], true, true⟩ [] :=
  short_read_implies_exhausted 5 freshStream [.request [1, 2] false] [1, 2]
    ⟨5, [], true, true⟩ [] (by decide) (by decide) (by decide)
